import Mathlib

/-!
A shallow embedding of `src/server.py` (the pagelets progressive-rendering
server).  Pure fragments of the Python code become Lean functions; the
mutable state of `PageletWriter` (the placeholder-index dictionary and the
pending set) is passed explicitly; the per-object `loaded` flag of
`TriggeredHTMLPagelet` is factored into an environment listing the ids of
the triggered pagelets on which `set_loaded()` has been called.  Byte
buffers are modelled as `String`s (the code writes UTF-8 encoded text).
-/

/-! ## Text encoding helpers (`html.escape`, `json.dumps`, `format`) -/

/-- One character of Python `html.escape(s, quote=True)`: `&`, `<`, `>`,
`"` and the apostrophe are replaced by entities, all else kept.  The
sequential `str.replace` calls of CPython are equivalent to this
character-wise map because `&` is replaced first. -/
def htmlEscapeChar (c : Char) : String :=
  if c = '&' then "&amp;"
  else if c = '<' then "&lt;"
  else if c = '>' then "&gt;"
  else if c = '"' then "&quot;"
  else if c = '\x27' then "&#x27;"
  else String.mk [c]

/-- Python `html.escape(s, quote=True)`. -/
def htmlEscape (s : String) : String :=
  String.mk (s.toList.flatMap (fun c => (htmlEscapeChar c).toList))

/-- Four lowercase hex digits, as produced inside Python `\uXXXX` escapes. -/
def hex4 (n : Nat) : String :=
  String.mk [Nat.digitChar (n / 4096 % 16), Nat.digitChar (n / 256 % 16),
    Nat.digitChar (n / 16 % 16), Nat.digitChar (n % 16)]

/-- One character of Python `json.dumps` applied to a string (default
`ensure_ascii=True`): `"` and `\` are backslash-escaped, the usual control
shorthands are used, every other character outside printable ASCII
(`0x20`..`0x7e`) becomes `\uXXXX` (a surrogate pair beyond the BMP). -/
def jsonEscapeChar (c : Char) : String :=
  if c = '"' then "\\\""
  else if c = '\\' then "\\\\"
  else if c = '\n' then "\\n"
  else if c = '\t' then "\\t"
  else if c = '\r' then "\\r"
  else if c = '\x08' then "\\b"
  else if c = '\x0c' then "\\f"
  else if c.toNat < 32 || 126 < c.toNat then
    if c.toNat ≤ 0xffff then "\\u" ++ hex4 c.toNat
    else
      "\\u" ++ hex4 (0xd800 + (c.toNat - 0x10000) / 1024) ++
      "\\u" ++ hex4 (0xdc00 + (c.toNat - 0x10000) % 1024)
  else String.mk [c]

/-- Python `json.dumps(s)` for a string `s`. -/
def jsonDumps (s : String) : String :=
  "\"" ++ String.mk (s.toList.flatMap (fun c => (jsonEscapeChar c).toList)) ++ "\""

/-- Decimal digits of `n`, most significant first, computed with explicit
fuel so that the definition is structurally recursive.  `natDigitsAux
(n + 1) n` always has enough fuel. -/
def natDigitsAux : Nat → Nat → List Char
  | 0, _ => []
  | fuel + 1, n =>
    if n < 10 then [Nat.digitChar n]
    else natDigitsAux fuel (n / 10) ++ [Nat.digitChar (n % 10)]

/-- Python `format` of a non-negative integer `n`: its decimal text. -/
def natRepr (n : Nat) : String :=
  String.mk (natDigitsAux (n + 1) n)

/-! ## The pagelet hierarchy

`HTMLPagelet` is an abstract class whose concrete subclasses in the file
are `LiteralHTMLPagelet`, `TriggeredHTMLPagelet` and `MultiHTMLPagelet`.
A pagelet value here carries everything immutable about the object; the
mutable `loaded` flag of a triggered pagelet lives in an environment
(`env : List Nat`, the ids on which `set_loaded()` was called), and the
`id` field stands for Python object identity (distinct objects are meant
to carry distinct ids). -/

inductive Pagelet where
  | literal (html : String)
  | triggered (id : Nat) (inner : Pagelet)
  | multi (children : List Pagelet)

mutual

def Pagelet.decEq : (a b : Pagelet) → Decidable (a = b)
  | .literal x, .literal y =>
    match String.decEq x y with
    | isTrue h => isTrue (h ▸ rfl)
    | isFalse h => isFalse (fun hh => by cases hh; exact h rfl)
  | .literal _, .triggered _ _ => isFalse nofun
  | .literal _, .multi _ => isFalse nofun
  | .triggered _ _, .literal _ => isFalse nofun
  | .triggered i a, .triggered j b =>
    match Nat.decEq i j, Pagelet.decEq a b with
    | isTrue h1, isTrue h2 => isTrue (h1 ▸ h2 ▸ rfl)
    | isFalse h1, _ => isFalse (fun hh => by cases hh; exact h1 rfl)
    | _, isFalse h2 => isFalse (fun hh => by cases hh; exact h2 rfl)
  | .triggered _ _, .multi _ => isFalse nofun
  | .multi _, .literal _ => isFalse nofun
  | .multi _, .triggered _ _ => isFalse nofun
  | .multi a, .multi b =>
    match Pagelet.decEqList a b with
    | isTrue h => isTrue (h ▸ rfl)
    | isFalse h => isFalse (fun hh => by cases hh; exact h rfl)
  termination_by structural a _ => a

def Pagelet.decEqList : (a b : List Pagelet) → Decidable (a = b)
  | [], [] => isTrue rfl
  | [], _ :: _ => isFalse nofun
  | _ :: _, [] => isFalse nofun
  | x :: xs, y :: ys =>
    match Pagelet.decEq x y, Pagelet.decEqList xs ys with
    | isTrue h1, isTrue h2 => isTrue (h1 ▸ h2 ▸ rfl)
    | isFalse h1, _ => isFalse (fun hh => by cases hh; exact h1 rfl)
    | _, isFalse h2 => isFalse (fun hh => by cases hh; exact h2 rfl)
  termination_by structural a _ => a

end

instance : DecidableEq Pagelet := Pagelet.decEq

/-- `HTMLPagelet.placeholder_id`: the text
`__HTMLPagelet_placeholder_` followed by the decimal index. -/
def placeholder_id (placeholder_index : Nat) : String :=
  "__HTMLPagelet_placeholder_" ++ natRepr placeholder_index

/-- The markup written by `HTMLPagelet.write_placeholder`: a hidden
`div` whose `id` attribute is the placeholder identifier run through
`html.escape` with `quote=True`. -/
def write_placeholder_output (placeholder_index : Nat) : String :=
  "<div style=\"display:none;\" id=" ++
    htmlEscape (placeholder_id placeholder_index) ++ "></div>"

/-- The `{html}` value spliced into the fixup script by
`HTMLPagelet.write_fixup`:
the `json.dumps` of the captured text with every `<` replaced by the
six-character escape sequence backslash-u003c.  The pattern of the
`str.replace` is the single character `<`, so the replacement is the
character-wise map below applied to the `json.dumps` output. -/
def html_js_literal (captured : String) : String :=
  String.mk ((jsonDumps captured).toList.flatMap
    (fun c => if c = '<' then "\\u003c".toList else [c]))

/-- The JavaScript body of the fixup `<script>` block built by
`HTMLPagelet.write_fixup`, with `pid` standing for the formatted
`{placeholder_id}` argument and `lit` for the formatted `{html}` argument
(doubled braces of the Python template are single braces here). -/
def fixup_js (pid lit : String) : String :=
  "(function () \x7b\n" ++
  "function fixScriptElements(root) \x7b\n" ++
  "    var scripts = root.querySelectorAll(\x27script\x27);\n" ++
  "    scripts = Array.prototype.slice.call(scripts);\n" ++
  "    var i;\n" ++
  "    for (i = 0; i < scripts.length; ++i) \x7b\n" ++
  "        var oldScript = scripts[i];\n" ++
  "        var newScript = document.createElement(\x27script\x27);\n" ++
  "        if (oldScript.src !== \x27\x27) \x7b\n" ++
  "            newScript.src = oldScript.src;\n" ++
  "        \x7d\n" ++
  "        newScript.text = oldScript.text;\n" ++
  "        if (oldScript.type !== \x27\x27) \x7b\n" ++
  "            newScript.type = oldScript.type;\n" ++
  "        \x7d\n" ++
  "        oldScript.parentNode.replaceChild(newScript, oldScript);\n" ++
  "    \x7d\n" ++
  "\x7d\n" ++
  "\n" ++
  "var placeholder = document.getElementById(" ++ pid ++ ");\n" ++
  "var html = " ++ lit ++ ";\n" ++
  "\n" ++
  "var placeholderParent = placeholder.parentNode;\n" ++
  "var replacement;\n" ++
  "var container;\n" ++
  "switch (placeholderParent.nodeType) \x7b\n" ++
  "    case Node.ELEMENT_NODE:\n" ++
  "        container = document.createElement(placeholderParent.nodeName);\n" ++
  "        container.innerHTML = html;\n" ++
  "        fixScriptElements(container);\n" ++
  "        replacement = document.createDocumentFragment();\n" ++
  "        while (container.firstChild) \x7b\n" ++
  "            replacement.appendChild(container.removeChild(container.firstChild));\n" ++
  "        \x7d\n" ++
  "        break;\n" ++
  "    default:\n" ++
  "        throw Exception(\x27Not implemented\x27)\n" ++
  "\x7d\n" ++
  "placeholderParent.replaceChild(replacement, placeholder);\n" ++
  "\n" ++
  "\x2f\x2f Remove this <script> element from the DOM.\n" ++
  "var scripts = document.getElementsByTagName(\x27script\x27);\n" ++
  "var script = scripts[scripts.length - 1];\n" ++
  "script.parentNode.removeChild(script);\n" ++
  "\x7d());"

/-! ## The placeholder registry (`PageletWriter`) -/

/-- The index-allocation state of `PageletWriter`: the monotone counter
`__next_pagelet_placeholder_index` and the dictionary
`__pagelet_placeholder_indexes`, keyed by pagelet identity and modelled as
an association list (new entries are prepended). -/
structure AllocState where
  next_pagelet_placeholder_index : Nat
  pagelet_placeholder_indexes : List (Pagelet × Nat)

def AllocState.init : AllocState := ⟨0, []⟩

/-- `PageletWriter.__pagelet_placeholder_index` (the `allocateIndex`
closure handed to pagelets as `placeholder_index_factory`): return the
recorded index if present, else record and return the next counter
value. -/
def pagelet_placeholder_index (st : AllocState) (pagelet : Pagelet) :
    Nat × AllocState :=
  match List.lookup pagelet st.pagelet_placeholder_indexes with
  | some i => (i, st)
  | none =>
    (st.next_pagelet_placeholder_index,
     ⟨st.next_pagelet_placeholder_index + 1,
      (pagelet, st.next_pagelet_placeholder_index) ::
        st.pagelet_placeholder_indexes⟩)

/-- `is_content_loaded`: `True` for literal and multi pagelets, the
`loaded` flag (here: membership of the id in the loaded-environment) for
triggered pagelets. -/
def is_content_loaded (env : List Nat) : Pagelet → Bool
  | .literal _ => true
  | .triggered i _ => env.contains i
  | .multi _ => true

mutual

/-- `write_in_place` of the three concrete pagelet classes, with the
output buffer and the allocator state of the writer made explicit: returns
(bytes written, pending pagelets returned, allocator state after the
call).  A literal writes its html; a loaded triggered pagelet delegates to
its inner pagelet; an unloaded one allocates its index, writes its
placeholder and returns `[self]`; a multi pagelet concatenates its
children in order. -/
def write_in_place : Pagelet → List Nat → AllocState →
    String × List Pagelet × AllocState
  | .literal h, _, st => (h, [], st)
  | .triggered i inner, env, st =>
    if env.contains i then
      write_in_place inner env st
    else
      let r := pagelet_placeholder_index st (.triggered i inner)
      (write_placeholder_output r.1, [.triggered i inner], r.2)
  | .multi cs, env, st => write_in_place_list cs env st
  termination_by structural p => p

/-- The loop body of `MultiHTMLPagelet.write_in_place`: children are
rendered left to right into the shared buffer, and the returned pending
lists are concatenated in the same order. -/
def write_in_place_list : List Pagelet → List Nat → AllocState →
    String × List Pagelet × AllocState
  | [], _, st => ("", [], st)
  | c :: cs, env, st =>
    let r1 := write_in_place c env st
    let r2 := write_in_place_list cs env r1.2.2
    (r1.1 ++ r2.1, r1.2.1 ++ r2.2.1, r2.2.2)
  termination_by structural l => l

end

/-- `HTMLPagelet.write_fixup`: render the real content into a private
temporary buffer via `write_in_place`, then emit a single
`<script>…</script>` block embedding the captured content, and return the
pending list produced by the inner `write_in_place` call. -/
def write_fixup (self : Pagelet) (placeholder_index : Nat) (env : List Nat)
    (st : AllocState) : String × List Pagelet × AllocState :=
  let r := write_in_place self env st
  ("<script>" ++
     fixup_js (jsonDumps (placeholder_id placeholder_index))
       (html_js_literal r.1) ++ "</script>",
   r.2.1, r.2.2)

/-- The state of a `PageletWriter`: the pending set
`__placeheld_pagelets` (a Python `set`, modelled as a duplicate-free list)
and the allocator state. -/
structure PageletWriter where
  placeheld_pagelets : List Pagelet
  alloc : AllocState

def PageletWriter.init : PageletWriter := ⟨[], AllocState.init⟩

/-- `set.add`: insert if not already present. -/
def setAdd (l : List Pagelet) (p : Pagelet) : List Pagelet :=
  if p ∈ l then l else l ++ [p]

/-- The `for pagelet in pending_pagelets: … .add(pagelet)` loops. -/
def addAll (l : List Pagelet) (ps : List Pagelet) : List Pagelet :=
  ps.foldl setAdd l

/-- `PageletWriter.write_pagelet_in_place`: render the pagelet and add
every returned pending pagelet to the pending set. -/
def write_pagelet_in_place (w : PageletWriter) (env : List Nat)
    (pagelet : Pagelet) : String × PageletWriter :=
  let r := write_in_place pagelet env w.alloc
  (r.1, ⟨addAll w.placeheld_pagelets r.2.1, r.2.2⟩)

/-- Result of one `write_fixups` call: bytes written, writer state after
the call, the pagelets on which `write_fixup` was invoked (in call order;
a ghost observation used to state the temporal claims), and whether the
call ran to completion (`ok = false` models the `KeyError` a missing
dictionary entry would raise, aborting the call). -/
structure FixupsResult where
  out : String
  writer : PageletWriter
  log : List Pagelet
  ok : Bool

/-- The loop of `PageletWriter.write_fixups`, iterating over the snapshot
`list(self.__placeheld_pagelets)` taken at entry: each loaded pagelet is
fixed up at its recorded index, removed from the pending set, and the
pending pagelets its fixup returned are added. -/
def write_fixups_go (env : List Nat) :
    List Pagelet → PageletWriter → FixupsResult
  | [], w => ⟨"", w, [], true⟩
  | p :: rest, w =>
    if is_content_loaded env p then
      match List.lookup p w.alloc.pagelet_placeholder_indexes with
      | some idx =>
        let f := write_fixup p idx env w.alloc
        let w2 : PageletWriter :=
          ⟨addAll (w.placeheld_pagelets.erase p) f.2.1, f.2.2⟩
        let r := write_fixups_go env rest w2
        ⟨f.1 ++ r.out, r.writer, p :: r.log, r.ok⟩
      | none => ⟨"", w, [], false⟩
    else write_fixups_go env rest w

/-- `PageletWriter.write_fixups`. -/
def write_fixups (w : PageletWriter) (env : List Nat) : FixupsResult :=
  write_fixups_go env w.placeheld_pagelets w

/-- `PageletWriter.has_pending_fixups`: `bool(self.__placeheld_pagelets)`. -/
def has_pending_fixups (w : PageletWriter) : Bool :=
  !w.placeheld_pagelets.isEmpty

/-- The finalization check at the end of `RequestHandler.do_GET`: if
`has_pending_fixups()` holds, raise `Exception` with the message
`Fixups not all resolved`. -/
def finalize_check (w : PageletWriter) : Except String Unit :=
  if has_pending_fixups w then Except.error "Fixups not all resolved"
  else Except.ok ()

/-! ## Rendering sessions

A session is a fresh `PageletWriter` driven by a sequence of the calls a
caller such as `do_GET` can make: render a root pagelet in place, call
`set_loaded()` on a triggered pagelet, or run one `write_fixups` pass.
The session accumulates the output stream, the ghost log of `write_fixup`
invocations, and an `aborted` flag modelling an escaped exception (after
which the rendering code of the caller no longer runs). -/

inductive Op where
  | render (pagelet : Pagelet)
  | setLoaded (id : Nat)
  | fixups

structure Session where
  writer : PageletWriter
  env : List Nat
  log : List Pagelet
  aborted : Bool

def Session.init : Session := ⟨PageletWriter.init, [], [], false⟩

def stepOp (s : Session) (op : Op) : String × Session :=
  if s.aborted then ("", s) else
  match op with
  | .render p =>
    let r := write_pagelet_in_place s.writer s.env p
    (r.1, ⟨r.2, s.env, s.log, false⟩)
  | .setLoaded i => ("", ⟨s.writer, i :: s.env, s.log, false⟩)
  | .fixups =>
    let r := write_fixups s.writer s.env
    (r.out, ⟨r.writer, s.env, s.log ++ r.log, !r.ok⟩)

def runOps : Session → List Op → String × Session
  | s, [] => ("", s)
  | s, op :: ops =>
    let r := stepOp s op
    let r2 := runOps r.2 ops
    (r.1 ++ r2.1, r2.2)

/-- A whole rendering session from a fresh writer. -/
def run (ops : List Op) : String × Session :=
  runOps Session.init ops

/-! ## Exception-aware model for the abstract hierarchy

`HTMLPagelet` is an open abstract class: `write_fixup` and `write_fixups`
must also behave correctly when the `write_in_place` of a subclass raises.  To
state the error-handling claim the hierarchy is extended with one extra
leaf, `raising`, modelling a subclass whose `write_in_place` always raises
(loaded: `is_content_loaded` is `True`), and the writer functions are
re-read in an `Except` monad: `Except.error` is an escaped exception.  An
error result carries no output — exactly the behaviour of the code, which
renders into a private `io.BytesIO` before touching the output buffer —
and `write_fixups_goE` stops at the raising unit with the pending set as
it was before the `write_fixup` call of that unit (the `remove`/`add` lines sit
after the call that raises). -/

inductive EPagelet where
  | literal (html : String)
  | triggered (id : Nat) (inner : EPagelet)
  | multi (children : List EPagelet)
  | raising

mutual

def EPagelet.decEq : (a b : EPagelet) → Decidable (a = b)
  | .literal x, .literal y =>
    match String.decEq x y with
    | isTrue h => isTrue (h ▸ rfl)
    | isFalse h => isFalse (fun hh => by cases hh; exact h rfl)
  | .literal _, .triggered _ _ => isFalse nofun
  | .literal _, .multi _ => isFalse nofun
  | .literal _, .raising => isFalse nofun
  | .triggered _ _, .literal _ => isFalse nofun
  | .triggered i a, .triggered j b =>
    match Nat.decEq i j, EPagelet.decEq a b with
    | isTrue h1, isTrue h2 => isTrue (h1 ▸ h2 ▸ rfl)
    | isFalse h1, _ => isFalse (fun hh => by cases hh; exact h1 rfl)
    | _, isFalse h2 => isFalse (fun hh => by cases hh; exact h2 rfl)
  | .triggered _ _, .multi _ => isFalse nofun
  | .triggered _ _, .raising => isFalse nofun
  | .multi _, .literal _ => isFalse nofun
  | .multi _, .triggered _ _ => isFalse nofun
  | .multi a, .multi b =>
    match EPagelet.decEqList a b with
    | isTrue h => isTrue (h ▸ rfl)
    | isFalse h => isFalse (fun hh => by cases hh; exact h rfl)
  | .multi _, .raising => isFalse nofun
  | .raising, .literal _ => isFalse nofun
  | .raising, .triggered _ _ => isFalse nofun
  | .raising, .multi _ => isFalse nofun
  | .raising, .raising => isTrue rfl
  termination_by structural a _ => a

def EPagelet.decEqList : (a b : List EPagelet) → Decidable (a = b)
  | [], [] => isTrue rfl
  | [], _ :: _ => isFalse nofun
  | _ :: _, [] => isFalse nofun
  | x :: xs, y :: ys =>
    match EPagelet.decEq x y, EPagelet.decEqList xs ys with
    | isTrue h1, isTrue h2 => isTrue (h1 ▸ h2 ▸ rfl)
    | isFalse h1, _ => isFalse (fun hh => by cases hh; exact h1 rfl)
    | _, isFalse h2 => isFalse (fun hh => by cases hh; exact h2 rfl)
  termination_by structural a _ => a

end

instance : DecidableEq EPagelet := EPagelet.decEq

structure EAllocState where
  next_pagelet_placeholder_index : Nat
  pagelet_placeholder_indexes : List (EPagelet × Nat)

def pagelet_placeholder_indexE (st : EAllocState) (pagelet : EPagelet) :
    Nat × EAllocState :=
  match List.lookup pagelet st.pagelet_placeholder_indexes with
  | some i => (i, st)
  | none =>
    (st.next_pagelet_placeholder_index,
     ⟨st.next_pagelet_placeholder_index + 1,
      (pagelet, st.next_pagelet_placeholder_index) ::
        st.pagelet_placeholder_indexes⟩)

def is_content_loadedE (env : List Nat) : EPagelet → Bool
  | .literal _ => true
  | .triggered i _ => env.contains i
  | .multi _ => true
  | .raising => true

mutual

/-- `write_in_place` over the extended hierarchy, in `Except`: the
`raising` subclass raises, and a raise inside a child propagates with
nothing more contributed at the buffer position of this call and no pending
list returned. -/
def write_in_placeE : EPagelet → List Nat → EAllocState →
    Except Unit (String × List EPagelet × EAllocState)
  | .literal h, _, st => .ok (h, [], st)
  | .triggered i inner, env, st =>
    if env.contains i then
      write_in_placeE inner env st
    else
      let r := pagelet_placeholder_indexE st (.triggered i inner)
      .ok (write_placeholder_output r.1, [.triggered i inner], r.2)
  | .multi cs, env, st => write_in_place_listE cs env st
  | .raising, _, _ => .error ()
  termination_by structural p => p

def write_in_place_listE : List EPagelet → List Nat → EAllocState →
    Except Unit (String × List EPagelet × EAllocState)
  | [], _, st => .ok ("", [], st)
  | c :: cs, env, st =>
    match write_in_placeE c env st with
    | .error e => .error e
    | .ok r1 =>
      match write_in_place_listE cs env r1.2.2 with
      | .error e => .error e
      | .ok r2 => .ok (r1.1 ++ r2.1, r1.2.1 ++ r2.2.1, r2.2.2)
  termination_by structural l => l

end

/-- `write_fixup` over the extended hierarchy: the real content is
rendered into the private temporary buffer first; if that raises, the
exception escapes before anything is written to the outer buffer. -/
def write_fixupE (self : EPagelet) (placeholder_index : Nat)
    (env : List Nat) (st : EAllocState) :
    Except Unit (String × List EPagelet × EAllocState) :=
  match write_in_placeE self env st with
  | .error e => .error e
  | .ok r =>
    .ok ("<script>" ++
        fixup_js (jsonDumps (placeholder_id placeholder_index))
          (html_js_literal r.1) ++ "</script>",
      r.2.1, r.2.2)

structure EPageletWriter where
  placeheld_pagelets : List EPagelet
  alloc : EAllocState

def setAddE (l : List EPagelet) (p : EPagelet) : List EPagelet :=
  if p ∈ l then l else l ++ [p]

def addAllE (l : List EPagelet) (ps : List EPagelet) : List EPagelet :=
  ps.foldl setAddE l

/-- Result of `write_fixups` over the extended hierarchy: output written
before any escaped exception, the writer state at that moment, and
whether the call completed. -/
structure EFixupsResult where
  out : String
  writer : EPageletWriter
  ok : Bool

/-- The `write_fixups` loop over the extended hierarchy.  When the
`write_fixup` of a unit raises, the loop stops there: the unit is not removed from
the pending set and nothing is written for it. -/
def write_fixups_goE (env : List Nat) :
    List EPagelet → EPageletWriter → EFixupsResult
  | [], w => ⟨"", w, true⟩
  | p :: rest, w =>
    if is_content_loadedE env p then
      match List.lookup p w.alloc.pagelet_placeholder_indexes with
      | some idx =>
        match write_fixupE p idx env w.alloc with
        | .error _ => ⟨"", w, false⟩
        | .ok f =>
          let w2 : EPageletWriter :=
            ⟨addAllE (w.placeheld_pagelets.erase p) f.2.1, f.2.2⟩
          let r := write_fixups_goE env rest w2
          ⟨f.1 ++ r.out, r.writer, r.ok⟩
      | none => ⟨"", w, false⟩
    else write_fixups_goE env rest w

def write_fixupsE (w : EPageletWriter) (env : List Nat) : EFixupsResult :=
  write_fixups_goE env w.placeheld_pagelets w

/-! ## Concrete pagelets for the scenarios of the spec -/

/-- Scenario B/C inner triggered pagelet `T2 = Triggered(Literal("B"))`. -/
def pageletT2 : Pagelet := .triggered 2 (.literal "B")

/-- Scenario C root `T1 = Triggered(Composite([Literal("A"), T2]))`. -/
def pageletT1 : Pagelet := .triggered 1 (.multi [.literal "A", pageletT2])

/-- Scenario B root `Triggered(Literal("Y"))`. -/
def pageletB : Pagelet := .triggered 7 (.literal "Y")

/-! ## Invariants used by the claims -/

/-- Well-formedness of the allocator state: every recorded index is below
the counter, no pagelet is recorded twice, and no index is recorded
twice. -/
def AllocInv (st : AllocState) : Prop :=
  (∀ pr ∈ st.pagelet_placeholder_indexes,
     pr.2 < st.next_pagelet_placeholder_index) ∧
  (st.pagelet_placeholder_indexes.map Prod.fst).Nodup ∧
  (st.pagelet_placeholder_indexes.map Prod.snd).Nodup

/-- The session invariant behind the temporal claims: the pending set is
duplicate-free and holds only triggered pagelets, each with a recorded
placeholder index; every pagelet ever fixed up was a triggered pagelet
loaded at fixup time; no pending pagelet has already been fixed up; and
no pagelet has been fixed up twice. -/
def SessionInv (s : Session) : Prop :=
  s.writer.placeheld_pagelets.Nodup ∧
  (∀ p ∈ s.writer.placeheld_pagelets, ∃ i inner, p = .triggered i inner) ∧
  (∀ p ∈ s.writer.placeheld_pagelets, ∃ j,
     List.lookup p s.writer.alloc.pagelet_placeholder_indexes = some j) ∧
  (∀ p ∈ s.log, ∃ i inner, p = .triggered i inner ∧ s.env.contains i = true) ∧
  (∀ p ∈ s.writer.placeheld_pagelets, p ∉ s.log) ∧
  s.log.Nodup

/-! ## Lemmas and claim theorems -/

theorem toList_mk (l : List Char) : (String.mk l).toList = l := rfl

/-- Every character of the embedded content literal comes either from the
six-character replacement `<` or is a non-`<` character kept by the
replace, so `<` never occurs. -/
theorem html_js_literal_no_lt (s : String) : '<' ∉ (html_js_literal s).toList := by
  intro h
  rw [html_js_literal, toList_mk] at h
  rcases List.mem_flatMap.mp h with ⟨c, hc, hmem⟩
  by_cases hlt : c = '<'
  · rw [if_pos hlt] at hmem
    exact absurd hmem (by decide)
  · rw [if_neg hlt] at hmem
    rcases List.mem_singleton.mp hmem with h2
    exact hlt h2.symm

/-- C3: the captured content string embedded by `write_fixup` into the
fixup script string literal contains no `<` character at all — in
particular no `</script>` sequence — so the captured HTML cannot
terminate the script block prematurely. -/
theorem c3_captured_literal_script_safe (s : String) :
    '<' ∉ (html_js_literal s).toList ∧
    ¬ ("</script>".toList <:+: (html_js_literal s).toList) := by
  refine ⟨html_js_literal_no_lt s, fun h => ?_⟩
  exact html_js_literal_no_lt s (h.subset (by decide))

/-- C5: once a triggered pagelet is loaded, `write_in_place` on it is
byte-for-byte, pending-list and allocator-state identical to
`write_in_place` on its wrapped inner pagelet. -/
theorem c5_loaded_triggered_transparent (i : Nat) (inner : Pagelet)
    (env : List Nat) (st : AllocState) (h : env.contains i = true) :
    write_in_place (.triggered i inner) env st = write_in_place inner env st := by
  rw [write_in_place, if_pos h]

theorem c5_witness :
    ([4] : List Nat).contains 4 = true ∧
    write_in_place (.triggered 4 (.literal "Z")) [4] AllocState.init =
      write_in_place (.literal "Z") [4] AllocState.init :=
  ⟨by decide,
   c5_loaded_triggered_transparent 4 (.literal "Z") [4] AllocState.init (by decide)⟩

theorem write_fixups_go_noop (env : List Nat) :
    ∀ (snap : List Pagelet) (w : PageletWriter),
      (∀ p ∈ snap, is_content_loaded env p = false) →
      write_fixups_go env snap w = ⟨"", w, [], true⟩ := by
  intro snap
  induction snap with
  | nil => intro w _; rfl
  | cons p rest ih =>
    intro w h
    have hp := h p (List.mem_cons_self p rest)
    rw [write_fixups_go, if_neg (by simp [hp])]
    exact ih w (fun q hq => h q (List.mem_cons_of_mem p hq))

/-- C6: a `write_fixups` call in a state where no pending pagelet is
loaded writes nothing, invokes no fixups, and leaves the writer state
(pending set and index mapping) unchanged. -/
theorem c6_fixups_frame (w : PageletWriter) (env : List Nat)
    (h : ∀ p ∈ w.placeheld_pagelets, is_content_loaded env p = false) :
    write_fixups w env = ⟨"", w, [], true⟩ :=
  write_fixups_go_noop env w.placeheld_pagelets w h

theorem c6_witness :
    (∀ p ∈ [Pagelet.triggered 0 (.literal "x")], is_content_loaded [] p = false) ∧
    write_fixups ⟨[Pagelet.triggered 0 (.literal "x")], AllocState.init⟩ [] =
      ⟨"", ⟨[Pagelet.triggered 0 (.literal "x")], AllocState.init⟩, [], true⟩ :=
  ⟨by decide, c6_fixups_frame ⟨[Pagelet.triggered 0 (.literal "x")], AllocState.init⟩ [] (by decide)⟩

/-- C8: finalizing a session (the end-of-document check in `do_GET`)
while the pending set is non-empty raises the fatal error instead of
silently ignoring the condition. -/
theorem c8_finalize_raises (w : PageletWriter)
    (h : has_pending_fixups w = true) :
    finalize_check w = Except.error "Fixups not all resolved" := by
  rw [finalize_check, if_pos h]

theorem c8_witness :
    has_pending_fixups ⟨[Pagelet.literal "x"], AllocState.init⟩ = true ∧
    finalize_check ⟨[Pagelet.literal "x"], AllocState.init⟩ =
      Except.error "Fixups not all resolved" :=
  ⟨by decide, c8_finalize_raises ⟨[Pagelet.literal "x"], AllocState.init⟩ (by decide)⟩

/-- Every pagelet on which the `write_fixups` loop invokes `write_fixup`
comes from the snapshot the loop iterates over. -/
theorem write_fixups_go_log_subset (env : List Nat) :
    ∀ (snap : List Pagelet) (w : PageletWriter),
      (write_fixups_go env snap w).log ⊆ snap := by
  intro snap
  induction snap with
  | nil => intro w q hq; exact absurd hq (by simp [write_fixups_go])
  | cons p rest ih =>
    intro w q hq
    by_cases hl : is_content_loaded env p = true
    · rw [write_fixups_go, if_pos hl] at hq
      cases hlook : List.lookup p w.alloc.pagelet_placeholder_indexes with
      | some idx =>
        rw [hlook] at hq
        simp only [List.cons_subset] at hq ⊢
        rcases List.mem_cons.mp hq with h1 | h1
        · exact h1 ▸ List.mem_cons_self p rest
        · exact List.mem_cons_of_mem p (ih _ h1)
      | none =>
        rw [hlook] at hq
        exact absurd hq (by simp)
    · rw [write_fixups_go, if_neg hl] at hq
      exact List.mem_cons_of_mem p (ih w hq)

/-- C4: a pagelet not pending when a `write_fixups` pass starts — in
particular one that becomes pending during the pass as output of some
fixup — is not resolved within that pass; and in Scenario C (`pageletT1`
wrapping a composite of a literal and `pageletT2`), after loading T1 and
running one pass, the pending set is exactly `[pageletT2]`. -/
theorem c4_new_pending_not_resolved_same_pass :
    (∀ (w : PageletWriter) (env : List Nat) (q : Pagelet),
       q ∉ w.placeheld_pagelets → q ∉ (write_fixups w env).log) ∧
    (run [.render pageletT1, .setLoaded 1, .fixups]).2.writer.placeheld_pagelets
      = [pageletT2] := by
  constructor
  · intro w env q hq hmem
    exact hq (write_fixups_go_log_subset env w.placeheld_pagelets w hmem)
  · rfl

theorem c4_witness :
    (Pagelet.literal "x") ∉ (write_fixups PageletWriter.init []).log :=
  c4_new_pending_not_resolved_same_pass.1 PageletWriter.init [] (.literal "x")
    (by decide)

/-- C10: `write_fixup` renders into a private buffer first, so when the
inner `write_in_place` raises (here: a `raising` subclass wrapped by a
loaded triggered pagelet), the exception escapes with no bytes written by
that `write_fixup` call, and the `write_fixups` loop stops with the
failing unit still in the pending set and the writer state untouched. -/
theorem c10_fixup_exception_writes_nothing (i : Nat) (env : List Nat)
    (idx : Nat) (st : EAllocState) (w : EPageletWriter)
    (rest : List EPagelet) (hload : env.contains i = true)
    (hmem : EPagelet.triggered i .raising ∈ w.placeheld_pagelets) :
    write_fixupE (.triggered i .raising) idx env st = .error () ∧
    write_fixups_goE env (.triggered i .raising :: rest) w = ⟨"", w, false⟩ ∧
    EPagelet.triggered i .raising ∈
      (write_fixups_goE env (.triggered i .raising :: rest) w).writer.placeheld_pagelets := by
  have h1 : ∀ st2 : EAllocState,
      write_in_placeE (.triggered i .raising) env st2 = .error () := by
    intro st2
    rw [write_in_placeE, if_pos hload]
    rfl
  have h2 : ∀ (st2 : EAllocState) (j : Nat),
      write_fixupE (.triggered i .raising) j env st2 = .error () := by
    intro st2 j
    rw [write_fixupE, h1 st2]
  have hgo : write_fixups_goE env (.triggered i .raising :: rest) w = ⟨"", w, false⟩ := by
    rw [write_fixups_goE]
    rw [if_pos (by exact hload)]
    cases hlook : List.lookup (EPagelet.triggered i .raising)
        w.alloc.pagelet_placeholder_indexes with
    | some j => simp only [h2]
    | none => rfl
  exact ⟨h2 st idx, hgo, by rw [hgo]; exact hmem⟩

theorem c10_witness :
    ([1] : List Nat).contains 1 = true ∧
    (EPagelet.triggered 1 .raising ∈
      (⟨[EPagelet.triggered 1 .raising], ⟨0, []⟩⟩ : EPageletWriter).placeheld_pagelets) ∧
    (write_fixupE (.triggered 1 .raising) 0 [1] ⟨0, []⟩ = .error () ∧
     write_fixups_goE [1] [EPagelet.triggered 1 .raising]
        ⟨[EPagelet.triggered 1 .raising], ⟨0, []⟩⟩ =
       ⟨"", ⟨[EPagelet.triggered 1 .raising], ⟨0, []⟩⟩, false⟩ ∧
     EPagelet.triggered 1 .raising ∈
       (write_fixups_goE [1] [EPagelet.triggered 1 .raising]
          ⟨[EPagelet.triggered 1 .raising], ⟨0, []⟩⟩).writer.placeheld_pagelets) :=
  ⟨by decide, by decide,
   c10_fixup_exception_writes_nothing 1 [1] 0 ⟨0, []⟩
     ⟨[EPagelet.triggered 1 .raising], ⟨0, []⟩⟩ [] (by decide) (by decide)⟩

/-! ### Association-list lemmas -/

theorem assoc_lookup_mem {α β : Type} [BEq α] [LawfulBEq α] :
    ∀ (l : List (α × β)) (k : α) (v : β), l.lookup k = some v → (k, v) ∈ l := by
  intro l
  induction l with
  | nil => intro k v h; exact absurd h (by simp)
  | cons a t ih =>
    intro k v h
    cases a with
    | mk a1 a2 =>
      rw [List.lookup_cons] at h
      cases hbe : k == a1 with
      | true =>
        rw [hbe] at h
        have hk : k = a1 := eq_of_beq hbe
        have hv : a2 = v := by
          simpa using h
        rw [hk, ← hv]
        exact List.mem_cons_self _ _
      | false =>
        rw [hbe] at h
        exact List.mem_cons_of_mem _ (ih k v h)

theorem assoc_lookup_none {α β : Type} [BEq α] [LawfulBEq α] :
    ∀ (l : List (α × β)) (k : α), l.lookup k = none →
      ∀ pr ∈ l, pr.1 ≠ k := by
  intro l
  induction l with
  | nil => intro k _ pr hpr; exact absurd hpr (by simp)
  | cons a t ih =>
    intro k h pr hpr
    cases a with
    | mk a1 a2 =>
      rw [List.lookup_cons] at h
      cases hbe : k == a1 with
      | true => rw [hbe] at h; exact absurd h (by simp)
      | false =>
        rw [hbe] at h
        rcases List.mem_cons.mp hpr with h1 | h1
        · rw [h1]
          intro hc
          have hk : a1 = k := hc
          rw [← hk] at hbe
          simp at hbe
        · exact ih k h pr h1

/-! ### Allocator lemmas -/

/-- Allocation leaves every previously recorded index in place. -/
theorem alloc_lookup_mono (st : AllocState) (p q : Pagelet) (i : Nat)
    (h : st.pagelet_placeholder_indexes.lookup q = some i) :
    ((pagelet_placeholder_index st p).2).pagelet_placeholder_indexes.lookup q
      = some i := by
  rw [pagelet_placeholder_index]
  cases hlook : st.pagelet_placeholder_indexes.lookup p with
  | some j => exact h
  | none =>
    simp only []
    rw [List.lookup_cons]
    cases hbe : q == p with
    | true =>
      have hqp : q = p := eq_of_beq hbe
      rw [hqp, hlook] at h
      exact Option.noConfusion h
    | false => exact h

/-- After `allocateIndex st p`, the returned index is what a lookup of
`p` in the returned state finds. -/
theorem alloc_lookup_self (st : AllocState) (p : Pagelet) :
    ((pagelet_placeholder_index st p).2).pagelet_placeholder_indexes.lookup p
      = some (pagelet_placeholder_index st p).1 := by
  rw [pagelet_placeholder_index]
  cases hlook : st.pagelet_placeholder_indexes.lookup p with
  | some j => exact hlook
  | none => simp

/-- If `p` already has a recorded index, `allocateIndex` returns it and
leaves the state unchanged. -/
theorem alloc_found (st : AllocState) (p : Pagelet) (i : Nat)
    (h : st.pagelet_placeholder_indexes.lookup p = some i) :
    pagelet_placeholder_index st p = (i, st) := by
  rw [pagelet_placeholder_index, h]

/-- Allocation preserves the allocator invariant. -/
theorem alloc_inv (st : AllocState) (p : Pagelet) (h : AllocInv st) :
    AllocInv (pagelet_placeholder_index st p).2 := by
  obtain ⟨hbound, hkeys, hvals⟩ := h
  rw [pagelet_placeholder_index]
  cases hlook : st.pagelet_placeholder_indexes.lookup p with
  | some j => exact ⟨hbound, hkeys, hvals⟩
  | none =>
    refine ⟨?_, ?_, ?_⟩
    · intro pr hpr
      rcases List.mem_cons.mp hpr with h1 | h1
      · rw [h1]; exact Nat.lt_succ_self _
      · exact Nat.lt_succ_of_lt (hbound pr h1)
    · refine List.nodup_cons.mpr ⟨?_, hkeys⟩
      intro hc
      rcases List.mem_map.mp hc with ⟨pr, hpr, hfst⟩
      exact assoc_lookup_none _ _ hlook pr hpr hfst
    · refine List.nodup_cons.mpr ⟨?_, hvals⟩
      intro hc
      rcases List.mem_map.mp hc with ⟨pr, hpr, hsnd⟩
      exact absurd hsnd (Nat.ne_of_lt (hbound pr hpr))

/-- In an invariant-respecting allocator state, distinct pagelets never
have the same recorded index. -/
theorem alloc_lookup_inj (st : AllocState) (h : AllocInv st)
    (p q : Pagelet) (i j : Nat)
    (hp : st.pagelet_placeholder_indexes.lookup p = some i)
    (hq : st.pagelet_placeholder_indexes.lookup q = some j)
    (hne : p ≠ q) : i ≠ j := by
  obtain ⟨hbound, hkeys, hvals⟩ := h
  have hmp := assoc_lookup_mem _ _ _ hp
  have hmq := assoc_lookup_mem _ _ _ hq
  intro hij
  have : (p, i) = (q, j) :=
    List.inj_on_of_nodup_map hvals hmp hmq (by simpa using hij)
  exact hne (congrArg Prod.fst this)

/-! ### `write_in_place` preserves the allocator facts -/

/-- Rendering preserves the allocator invariant. -/
theorem wip_alloc_inv (p : Pagelet) (env : List Nat) (st : AllocState)
    (hi : AllocInv st) : AllocInv (write_in_place p env st).2.2 := by
  refine write_in_place.induct
    (fun p env st => AllocInv st → AllocInv (write_in_place p env st).2.2)
    (fun cs env st => AllocInv st → AllocInv (write_in_place_list cs env st).2.2)
    ?_ ?_ ?_ ?_ ?_ ?_ p env st hi
  · intro h env st hi
    rw [write_in_place]
    exact hi
  · intro i inner env st hc ih hi
    rw [write_in_place, if_pos hc]
    exact ih hi
  · intro i inner env st hc hi
    rw [write_in_place, if_neg hc]
    exact alloc_inv st _ hi
  · intro cs env st ih hi
    rw [write_in_place]
    exact ih hi
  · intro env st hi
    rw [write_in_place_list]
    exact hi
  · intro c cs env st r1 ih1 ih2 hi
    rw [write_in_place_list]
    exact ih2 (ih1 hi)

/-- Rendering never forgets a recorded placeholder index. -/
theorem wip_lookup_mono (p : Pagelet) (env : List Nat) (st : AllocState)
    (q : Pagelet) (i : Nat)
    (h : st.pagelet_placeholder_indexes.lookup q = some i) :
    ((write_in_place p env st).2.2).pagelet_placeholder_indexes.lookup q
      = some i := by
  refine write_in_place.induct
    (fun p env st => ∀ i,
      st.pagelet_placeholder_indexes.lookup q = some i →
      ((write_in_place p env st).2.2).pagelet_placeholder_indexes.lookup q
        = some i)
    (fun cs env st => ∀ i,
      st.pagelet_placeholder_indexes.lookup q = some i →
      ((write_in_place_list cs env st).2.2).pagelet_placeholder_indexes.lookup q
        = some i)
    ?_ ?_ ?_ ?_ ?_ ?_ p env st i h
  · intro h2 env st i h3
    rw [write_in_place]
    exact h3
  · intro j inner env st hc ih i h3
    rw [write_in_place, if_pos hc]
    exact ih i h3
  · intro j inner env st hc i h3
    rw [write_in_place, if_neg hc]
    exact alloc_lookup_mono st _ q i h3
  · intro cs env st ih i h3
    rw [write_in_place]
    exact ih i h3
  · intro env st i h3
    rw [write_in_place_list]
    exact h3
  · intro c cs env st r1 ih1 ih2 i h3
    rw [write_in_place_list]
    exact ih2 i (ih1 i h3)

/-- Every pagelet in a pending list returned by `write_in_place` is a
triggered pagelet that was not loaded, and it leaves the call with a
recorded placeholder index. -/
theorem wip_pending_shape (p : Pagelet) (env : List Nat) (st : AllocState) :
    ∀ q ∈ (write_in_place p env st).2.1,
      (∃ i inner, q = .triggered i inner ∧ env.contains i = false) ∧
      ∃ j, ((write_in_place p env st).2.2).pagelet_placeholder_indexes.lookup q
        = some j := by
  refine write_in_place.induct
    (fun p env st => ∀ q ∈ (write_in_place p env st).2.1,
      (∃ i inner, q = .triggered i inner ∧ env.contains i = false) ∧
      ∃ j, ((write_in_place p env st).2.2).pagelet_placeholder_indexes.lookup q
        = some j)
    (fun cs env st => ∀ q ∈ (write_in_place_list cs env st).2.1,
      (∃ i inner, q = .triggered i inner ∧ env.contains i = false) ∧
      ∃ j, ((write_in_place_list cs env st).2.2).pagelet_placeholder_indexes.lookup q
        = some j)
    ?_ ?_ ?_ ?_ ?_ ?_ p env st
  · intro h env st q hq
    rw [write_in_place] at hq
    exact absurd hq (by simp)
  · intro i inner env st hc ih q hq
    rw [write_in_place, if_pos hc] at hq ⊢
    exact ih q hq
  · intro i inner env st hc q hq
    rw [write_in_place, if_neg hc] at hq ⊢
    have hq2 : q = Pagelet.triggered i inner := by simpa using hq
    subst hq2
    refine ⟨⟨i, inner, rfl, ?_⟩, ?_⟩
    · cases hcc : env.contains i with
      | true => exact absurd hcc hc
      | false => rfl
    · exact ⟨_, alloc_lookup_self st _⟩
  · intro cs env st ih q hq
    rw [write_in_place] at hq ⊢
    exact ih q hq
  · intro env st q hq
    simp [write_in_place_list] at hq
  · intro c cs env st r1 ih1 ih2 q hq
    rw [write_in_place_list] at hq ⊢
    rcases List.mem_append.mp hq with h1 | h1
    · obtain ⟨hshape, j, hj⟩ := ih1 q h1
      refine ⟨hshape, j, ?_⟩
      have := wip_lookup_mono (.multi cs) env (write_in_place c env st).2.2 q j hj
      rw [write_in_place] at this
      exact this
    · exact ih2 q h1

/-- If `q` has no recorded index, `allocateIndex` hands out the counter. -/
theorem alloc_not_found (st : AllocState) (q : Pagelet)
    (h : st.pagelet_placeholder_indexes.lookup q = none) :
    (pagelet_placeholder_index st q).1 = st.next_pagelet_placeholder_index := by
  rw [pagelet_placeholder_index, h]

/-- The `write_fixups` loop preserves the allocator invariant. -/
theorem fixups_go_alloc_inv (env : List Nat) :
    ∀ (snap : List Pagelet) (w : PageletWriter), AllocInv w.alloc →
      AllocInv (write_fixups_go env snap w).writer.alloc := by
  intro snap
  induction snap with
  | nil => intro w hi; exact hi
  | cons p rest ih =>
    intro w hi
    by_cases hl : is_content_loaded env p = true
    · rw [write_fixups_go, if_pos hl]
      cases hlook : List.lookup p w.alloc.pagelet_placeholder_indexes with
      | some idx =>
        simp only []
        exact ih _ (wip_alloc_inv p env w.alloc hi)
      | none => exact hi
    · rw [write_fixups_go, if_neg hl]
      exact ih w hi

/-- One session step preserves the allocator invariant. -/
theorem stepOp_alloc_inv (s : Session) (op : Op)
    (hi : AllocInv s.writer.alloc) :
    AllocInv (stepOp s op).2.writer.alloc := by
  unfold stepOp
  by_cases ha : s.aborted = true
  · rw [if_pos ha]; exact hi
  · rw [if_neg ha]
    cases op with
    | render p => exact wip_alloc_inv p s.env s.writer.alloc hi
    | setLoaded i => exact hi
    | fixups => exact fixups_go_alloc_inv s.env s.writer.placeheld_pagelets s.writer hi

theorem runOps_alloc_inv :
    ∀ (ops : List Op) (s : Session), AllocInv s.writer.alloc →
      AllocInv (runOps s ops).2.writer.alloc := by
  intro ops
  induction ops with
  | nil => intro s hi; exact hi
  | cons op rest ih =>
    intro s hi
    rw [runOps]
    exact ih _ (stepOp_alloc_inv s op hi)

/-- C2: across any rendering session from a fresh writer the allocator
invariant holds; `allocateIndex` returns the same index when called again
with the same pagelet; and starting from an invariant-respecting state,
two allocations for distinct pagelets never return the same index. -/
theorem c2_allocator_unique_and_stable :
    (∀ ops : List Op, AllocInv (run ops).2.writer.alloc) ∧
    (∀ (st : AllocState) (p : Pagelet),
       (pagelet_placeholder_index (pagelet_placeholder_index st p).2 p).1 =
         (pagelet_placeholder_index st p).1) ∧
    (∀ (st : AllocState) (p q : Pagelet), AllocInv st → p ≠ q →
       (pagelet_placeholder_index st p).1 ≠
         (pagelet_placeholder_index (pagelet_placeholder_index st p).2 q).1) := by
  refine ⟨?_, ?_, ?_⟩
  · intro ops
    refine runOps_alloc_inv ops Session.init ?_
    exact ⟨fun pr hpr => by simp [Session.init, PageletWriter.init, AllocState.init] at hpr,
      by decide, by decide⟩
  · intro st p
    rw [alloc_found _ p _ (alloc_lookup_self st p)]
  · intro st p q hi hne hij
    have hp := alloc_lookup_self st p
    have hinv1 : AllocInv (pagelet_placeholder_index st p).2 := alloc_inv st p hi
    cases hlookq : ((pagelet_placeholder_index st p).2).pagelet_placeholder_indexes.lookup q with
    | some j =>
      rw [alloc_found _ q j hlookq] at hij
      exact alloc_lookup_inj _ hinv1 p q _ j hp hlookq hne hij
    | none =>
      have hm := assoc_lookup_mem _ _ _ hp
      have hlt := hinv1.1 _ hm
      rw [alloc_not_found _ q hlookq] at hij
      exact absurd hij (Nat.ne_of_lt hlt)

theorem c2_witness :
    AllocInv AllocState.init ∧
    (Pagelet.literal "a") ≠ (Pagelet.literal "b") ∧
    (pagelet_placeholder_index AllocState.init (.literal "a")).1 ≠
      (pagelet_placeholder_index
        (pagelet_placeholder_index AllocState.init (.literal "a")).2
        (.literal "b")).1 :=
  ⟨⟨fun pr hpr => by simp [AllocState.init] at hpr, by decide, by decide⟩, by decide,
   c2_allocator_unique_and_stable.2.2 AllocState.init (.literal "a") (.literal "b")
     ⟨fun pr hpr => by simp [AllocState.init] at hpr, by decide, by decide⟩ (by decide)⟩

/-! ### Decimal formatting is injective -/

theorem natDigitsAux_fuel :
    ∀ (f g n : Nat), n < f → n < g → natDigitsAux f n = natDigitsAux g n := by
  intro f
  induction f with
  | zero => intro g n hf; exact absurd hf (Nat.not_lt_zero n)
  | succ f ih =>
    intro g n hf hg
    cases g with
    | zero => exact absurd hg (Nat.not_lt_zero n)
    | succ g =>
      rw [natDigitsAux, natDigitsAux]
      by_cases h10 : n < 10
      · rw [if_pos h10, if_pos h10]
      · rw [if_neg h10, if_neg h10]
        have hdiv : n / 10 < n := Nat.div_lt_self (by omega) (by omega)
        rw [ih g (n / 10) (by omega) (by omega)]

/-- The canonical-fuel unfolding of the digit expansion. -/
theorem natDigits_eq (n : Nat) :
    natDigitsAux (n + 1) n =
      if n < 10 then [Nat.digitChar n]
      else natDigitsAux (n / 10 + 1) (n / 10) ++ [Nat.digitChar (n % 10)] := by
  rw [natDigitsAux]
  by_cases h10 : n < 10
  · rw [if_pos h10, if_pos h10]
  · rw [if_neg h10, if_neg h10]
    have hdiv : n / 10 < n := Nat.div_lt_self (by omega) (by omega)
    rw [natDigitsAux_fuel n (n / 10 + 1) (n / 10) (by omega) (by omega)]

theorem natDigits_ne_nil (n : Nat) : natDigitsAux (n + 1) n ≠ [] := by
  rw [natDigits_eq]
  by_cases h10 : n < 10
  · rw [if_pos h10]; simp
  · rw [if_neg h10]; simp

theorem digitChar_inj_lt :
    ∀ a < 10, ∀ b < 10, Nat.digitChar a = Nat.digitChar b → a = b := by decide

theorem natDigits_inj :
    ∀ a b : Nat, natDigitsAux (a + 1) a = natDigitsAux (b + 1) b → a = b := by
  intro a
  induction a using Nat.strong_induction_on with
  | _ a ih =>
    intro b h
    rw [natDigits_eq a, natDigits_eq b] at h
    by_cases ha : a < 10
    · by_cases hb : b < 10
      · rw [if_pos ha, if_pos hb] at h
        exact digitChar_inj_lt a ha b hb (List.cons.inj h).1
      · rw [if_pos ha, if_neg hb] at h
        have hlen := congrArg List.length h
        rw [List.length_append] at hlen
        simp only [List.length_singleton] at hlen
        have : natDigitsAux (b / 10 + 1) (b / 10) = [] :=
          List.eq_nil_of_length_eq_zero (by omega)
        exact absurd this (natDigits_ne_nil (b / 10))
    · by_cases hb : b < 10
      · rw [if_neg ha, if_pos hb] at h
        have hlen := congrArg List.length h
        rw [List.length_append] at hlen
        simp only [List.length_singleton] at hlen
        have : natDigitsAux (a / 10 + 1) (a / 10) = [] :=
          List.eq_nil_of_length_eq_zero (by omega)
        exact absurd this (natDigits_ne_nil (a / 10))
      · rw [if_neg ha, if_neg hb] at h
        have h2 := congrArg List.reverse h
        rw [List.reverse_append, List.reverse_append] at h2
        simp only [List.reverse_cons, List.reverse_nil, List.nil_append,
          List.singleton_append] at h2
        obtain ⟨h3, h4⟩ := List.cons.inj h2
        have hmod : a % 10 = b % 10 :=
          digitChar_inj_lt _ (Nat.mod_lt a (by omega)) _ (Nat.mod_lt b (by omega)) h3
        have hdivlt : a / 10 < a := Nat.div_lt_self (by omega) (by omega)
        have hdiv : a / 10 = b / 10 :=
          ih (a / 10) hdivlt (b / 10) (List.reverse_inj.mp h4)
        omega

theorem natRepr_inj (a b : Nat) (h : natRepr a = natRepr b) : a = b :=
  natDigits_inj a b (congrArg String.data h)

theorem placeholder_id_inj (i j : Nat)
    (h : placeholder_id i = placeholder_id j) : i = j := by
  rw [placeholder_id, placeholder_id] at h
  have h2 := congrArg String.data h
  have h3 : "__HTMLPagelet_placeholder_".data ++ (natRepr i).data =
      "__HTMLPagelet_placeholder_".data ++ (natRepr j).data := h2
  exact natRepr_inj i j (congrArg String.mk (List.append_cancel_left h3))

/-! ### Placeholder markers for distinct indices differ -/

theorem natDigitsAux_digits :
    ∀ (f n : Nat), ∀ c ∈ natDigitsAux f n, ∃ d, d < 10 ∧ c = Nat.digitChar d := by
  intro f
  induction f with
  | zero => intro n c hc; exact absurd hc (by simp [natDigitsAux])
  | succ f ih =>
    intro n c hc
    rw [natDigitsAux] at hc
    by_cases h10 : n < 10
    · rw [if_pos h10] at hc
      exact ⟨n, h10, (List.mem_singleton.mp hc)⟩
    · rw [if_neg h10] at hc
      rcases List.mem_append.mp hc with h1 | h1
      · exact ih (n / 10) c h1
      · exact ⟨n % 10, Nat.mod_lt n (by omega), List.mem_singleton.mp h1⟩

theorem htmlEscapeChar_digit :
    ∀ d < 10, htmlEscapeChar (Nat.digitChar d) = String.mk [Nat.digitChar d] := by
  decide

theorem flatMap_escape_id :
    ∀ l : List Char, (∀ c ∈ l, (htmlEscapeChar c).toList = [c]) →
      (l.flatMap fun c => (htmlEscapeChar c).toList) = l := by
  intro l
  induction l with
  | nil => intro _; rfl
  | cons c t ih =>
    intro h
    rw [List.flatMap_cons, h c (List.mem_cons_self _ _),
      ih (fun d hd => h d (List.mem_cons_of_mem _ hd))]
    rfl

theorem placeholder_id_chars (i : Nat) :
    ∀ c ∈ (placeholder_id i).toList, (htmlEscapeChar c).toList = [c] := by
  intro c hc
  rcases List.mem_append.mp hc with h1 | h1
  · have hpre : ∀ c ∈ "__HTMLPagelet_placeholder_".toList,
        (htmlEscapeChar c).toList = [c] := by decide
    exact hpre c h1
  · obtain ⟨d, hd, hcd⟩ := natDigitsAux_digits (i + 1) i c h1
    rw [hcd, htmlEscapeChar_digit d hd]
    rfl

theorem htmlEscape_placeholder_id (i : Nat) :
    htmlEscape (placeholder_id i) = placeholder_id i := by
  rw [htmlEscape, flatMap_escape_id _ (placeholder_id_chars i)]
  rfl

theorem write_placeholder_output_inj (i j : Nat)
    (h : write_placeholder_output i = write_placeholder_output j) : i = j := by
  rw [write_placeholder_output, write_placeholder_output,
    htmlEscape_placeholder_id, htmlEscape_placeholder_id] at h
  have h2 : ("<div style=\"display:none;\" id=".data ++ (placeholder_id i).data)
        ++ "></div>".data =
      ("<div style=\"display:none;\" id=".data ++ (placeholder_id j).data)
        ++ "></div>".data := congrArg String.data h
  exact placeholder_id_inj i j
    (congrArg String.mk (List.append_cancel_left (List.append_cancel_right h2)))

/-- C9 counterexample: rendering the same unloaded triggered pagelet
twice in one session writes the same placeholder marker — carrying the
same DOM identifier `__HTMLPagelet_placeholder_0` — twice, so identifiers
are not unique when the same unit instance is rendered in place more than
once. -/
theorem c9_counterexample_same_marker_twice :
    (run [.render pageletB, .render pageletB]).1 =
      write_placeholder_output 0 ++ write_placeholder_output 0 ∧
    write_placeholder_output 0 =
      "<div style=\"display:none;\" id=__HTMLPagelet_placeholder_0></div>" ∧
    (run [.render pageletB, .render pageletB]).2.writer.placeheld_pagelets
      = [pageletB] :=
  ⟨rfl, rfl, rfl⟩

/-- C9 (amended): placeholder DOM identifiers embed the allocator index,
so two *distinct* units with recorded indices never produce the same
identifier or the same placeholder marker; an identifier repeats only
when the same unit instance is placeholder-rendered more than once. -/
theorem c9_amended_identifiers_unique_across_units (st : AllocState)
    (p q : Pagelet) (i j : Nat) (hi : AllocInv st)
    (hp : st.pagelet_placeholder_indexes.lookup p = some i)
    (hq : st.pagelet_placeholder_indexes.lookup q = some j) (hne : p ≠ q) :
    placeholder_id i ≠ placeholder_id j ∧
    write_placeholder_output i ≠ write_placeholder_output j := by
  have hij : i ≠ j := alloc_lookup_inj st hi p q i j hp hq hne
  exact ⟨fun h => hij (placeholder_id_inj i j h),
    fun h => hij (write_placeholder_output_inj i j h)⟩

theorem c9_witness :
    placeholder_id 0 ≠ placeholder_id 1 ∧
    write_placeholder_output 0 ≠ write_placeholder_output 1 :=
  c9_amended_identifiers_unique_across_units
    ⟨2, [(.literal "b", 1), (.literal "a", 0)]⟩
    (.literal "a") (.literal "b") 0 1
    ⟨by decide, by decide, by decide⟩ (by decide) (by decide) (by decide)

set_option maxRecDepth 16384 in
/-- C7: Scenario B.  Rendering the unloaded root `Triggered(Literal("Y"))`
writes exactly one placeholder carrying index 0 and the pending set is
exactly the root; after `set_loaded()` and one `write_fixups` call, the
session output exactly extends by one fixup `<script>` block referencing
index 0 whose captured payload is `"Y"`, and the pending set is empty. -/
theorem c7_scenario_b :
    (run [.render pageletB]).1 = write_placeholder_output 0 ∧
    write_placeholder_output 0 =
      "<div style=\"display:none;\" id=__HTMLPagelet_placeholder_0></div>" ∧
    (run [.render pageletB]).2.writer.placeheld_pagelets = [pageletB] ∧
    (run [.render pageletB, .setLoaded 7, .fixups]).1 =
      write_placeholder_output 0 ++
        ("<script>" ++
          fixup_js (jsonDumps (placeholder_id 0)) (html_js_literal "Y") ++
          "</script>") ∧
    html_js_literal "Y" = "\"Y\"" ∧
    jsonDumps (placeholder_id 0) = "\"__HTMLPagelet_placeholder_0\"" ∧
    (run [.render pageletB, .setLoaded 7, .fixups]).2.writer.placeheld_pagelets
      = [] ∧
    has_pending_fixups
      (run [.render pageletB, .setLoaded 7, .fixups]).2.writer = false ∧
    (run [.render pageletB, .setLoaded 7, .fixups]).2.log = [pageletB] :=
  ⟨rfl, rfl, rfl, rfl, rfl, rfl, rfl, rfl, rfl⟩

/-! ### Pending-set (`set`) lemmas -/

theorem setAdd_nodup (l : List Pagelet) (p : Pagelet) (h : l.Nodup) :
    (setAdd l p).Nodup := by
  rw [setAdd]
  by_cases hp : p ∈ l
  · rw [if_pos hp]; exact h
  · rw [if_neg hp]
    rw [List.nodup_append]
    exact ⟨h, List.nodup_singleton p,
      fun a ha hap => hp ((List.mem_singleton.mp hap) ▸ ha)⟩

theorem mem_setAdd {l : List Pagelet} {p q : Pagelet} :
    q ∈ setAdd l p ↔ q ∈ l ∨ q = p := by
  rw [setAdd]
  by_cases hp : p ∈ l
  · rw [if_pos hp]
    constructor
    · exact Or.inl
    · rintro (h | h)
      · exact h
      · exact h ▸ hp
  · rw [if_neg hp]
    simp [List.mem_append]

theorem mem_addAll {ps : List Pagelet} :
    ∀ {l : List Pagelet} {q : Pagelet}, q ∈ addAll l ps ↔ q ∈ l ∨ q ∈ ps := by
  induction ps with
  | nil =>
    intro l q
    rw [addAll]
    simp
  | cons p t ih =>
    intro l q
    rw [addAll, List.foldl_cons]
    have h2 : q ∈ addAll (setAdd l p) t ↔ q ∈ setAdd l p ∨ q ∈ t := ih
    rw [addAll] at h2
    rw [h2, mem_setAdd, List.mem_cons]
    tauto

theorem addAll_nodup (ps : List Pagelet) :
    ∀ l : List Pagelet, l.Nodup → (addAll l ps).Nodup := by
  induction ps with
  | nil => intro l h; exact h
  | cons p t ih =>
    intro l h
    rw [addAll, List.foldl_cons]
    have h2 := ih (setAdd l p) (setAdd_nodup l p h)
    rw [addAll] at h2
    exact h2

/-- Master lemma about one `write_fixups` pass over a snapshot: the
pending set stays duplicate-free, all-triggered and all-indexed; the
fixup log of the pass is a duplicate-free selection of loaded snapshot
elements; fixed pagelets are not pending afterwards; pagelets pending
afterwards were pending before or are freshly revealed unloaded ones; and
recorded indices survive. -/
theorem fixups_go_master (env : List Nat) :
    ∀ (snap : List Pagelet) (w : PageletWriter),
      w.placeheld_pagelets.Nodup →
      (∀ p ∈ w.placeheld_pagelets, ∃ i inner, p = Pagelet.triggered i inner) →
      (∀ p ∈ w.placeheld_pagelets, ∃ j,
         w.alloc.pagelet_placeholder_indexes.lookup p = some j) →
      (∀ p ∈ snap, ∃ j, w.alloc.pagelet_placeholder_indexes.lookup p = some j) →
      snap.Nodup →
      ((write_fixups_go env snap w).writer.placeheld_pagelets.Nodup ∧
       (∀ p ∈ (write_fixups_go env snap w).writer.placeheld_pagelets,
          ∃ i inner, p = Pagelet.triggered i inner) ∧
       (∀ p ∈ (write_fixups_go env snap w).writer.placeheld_pagelets, ∃ j,
          ((write_fixups_go env snap w).writer.alloc.pagelet_placeholder_indexes.lookup p)
            = some j) ∧
       (∀ p ∈ (write_fixups_go env snap w).log,
          p ∈ snap ∧ is_content_loaded env p = true) ∧
       (write_fixups_go env snap w).log.Nodup ∧
       (∀ p ∈ (write_fixups_go env snap w).log,
          p ∉ (write_fixups_go env snap w).writer.placeheld_pagelets) ∧
       (∀ q ∈ (write_fixups_go env snap w).writer.placeheld_pagelets,
          q ∈ w.placeheld_pagelets ∨ is_content_loaded env q = false) ∧
       (∀ (q : Pagelet) (i : Nat),
          w.alloc.pagelet_placeholder_indexes.lookup q = some i →
          ((write_fixups_go env snap w).writer.alloc.pagelet_placeholder_indexes.lookup q)
            = some i)) := by
  intro snap
  induction snap with
  | nil =>
    intro w hN hT hIDX _ _
    rw [write_fixups_go]
    exact ⟨hN, hT, hIDX, fun p hp => absurd hp (by simp),
      List.nodup_nil, fun p hp => absurd hp (by simp),
      fun q hq => Or.inl hq, fun q i h => h⟩
  | cons p rest ih =>
    intro w hN hT hIDX hsIDX hsN
    by_cases hl : is_content_loaded env p = true
    · obtain ⟨idx, hlook⟩ := hsIDX p (List.mem_cons_self _ _)
      have hf1 : (write_fixup p idx env w.alloc).2.1 =
          (write_in_place p env w.alloc).2.1 := rfl
      have hf2 : (write_fixup p idx env w.alloc).2.2 =
          (write_in_place p env w.alloc).2.2 := rfl
      have heq : write_fixups_go env (p :: rest) w =
          ⟨(write_fixup p idx env w.alloc).1 ++
             (write_fixups_go env rest
               ⟨addAll (w.placeheld_pagelets.erase p)
                  (write_fixup p idx env w.alloc).2.1,
                (write_fixup p idx env w.alloc).2.2⟩).out,
           (write_fixups_go env rest
             ⟨addAll (w.placeheld_pagelets.erase p)
                (write_fixup p idx env w.alloc).2.1,
              (write_fixup p idx env w.alloc).2.2⟩).writer,
           p :: (write_fixups_go env rest
             ⟨addAll (w.placeheld_pagelets.erase p)
                (write_fixup p idx env w.alloc).2.1,
              (write_fixup p idx env w.alloc).2.2⟩).log,
           (write_fixups_go env rest
             ⟨addAll (w.placeheld_pagelets.erase p)
                (write_fixup p idx env w.alloc).2.1,
              (write_fixup p idx env w.alloc).2.2⟩).ok⟩ := by
        rw [write_fixups_go, if_pos hl, hlook]
      set W2 : PageletWriter :=
        ⟨addAll (w.placeheld_pagelets.erase p)
           (write_fixup p idx env w.alloc).2.1,
         (write_fixup p idx env w.alloc).2.2⟩ with hW2
      rw [heq]
      have hshape := wip_pending_shape p env w.alloc
      have hW2mem : ∀ q, q ∈ W2.placeheld_pagelets ↔
          q ∈ w.placeheld_pagelets.erase p ∨
          q ∈ (write_in_place p env w.alloc).2.1 := by
        intro q
        rw [hW2]
        rw [hf1]
        exact mem_addAll
      have hN2 : W2.placeheld_pagelets.Nodup := by
        rw [hW2, hf1]
        exact addAll_nodup _ _ (hN.erase p)
      have hT2 : ∀ q ∈ W2.placeheld_pagelets, ∃ i inner,
          q = Pagelet.triggered i inner := by
        intro q hq
        rcases (hW2mem q).mp hq with h1 | h1
        · exact hT q (List.mem_of_mem_erase h1)
        · obtain ⟨⟨i, inner, hqi, _⟩, _⟩ := hshape q h1
          exact ⟨i, inner, hqi⟩
      have hIDX2 : ∀ q ∈ W2.placeheld_pagelets, ∃ j,
          W2.alloc.pagelet_placeholder_indexes.lookup q = some j := by
        intro q hq
        have hW2a : W2.alloc = (write_in_place p env w.alloc).2.2 := by
          rw [hW2]; exact hf2
        rcases (hW2mem q).mp hq with h1 | h1
        · obtain ⟨j, hj⟩ := hIDX q (List.mem_of_mem_erase h1)
          refine ⟨j, ?_⟩
          rw [hW2a]
          exact wip_lookup_mono p env w.alloc q j hj
        · obtain ⟨_, j, hj⟩ := hshape q h1
          refine ⟨j, ?_⟩
          rw [hW2a]
          exact hj
      have hsIDX2 : ∀ q ∈ rest, ∃ j,
          W2.alloc.pagelet_placeholder_indexes.lookup q = some j := by
        intro q hq
        obtain ⟨j, hj⟩ := hsIDX q (List.mem_cons_of_mem p hq)
        refine ⟨j, ?_⟩
        have hW2a : W2.alloc = (write_in_place p env w.alloc).2.2 := by
          rw [hW2]; exact hf2
        rw [hW2a]
        exact wip_lookup_mono p env w.alloc q j hj
      obtain ⟨ihN, ihT, ihIDX, ihLOG, ihLN, ihDISJ, ihNEW, ihMONO⟩ :=
        ih W2 hN2 hT2 hIDX2 hsIDX2 hsN.of_cons
      have hpnotW2 : p ∉ W2.placeheld_pagelets := by
        intro hc
        rcases (hW2mem p).mp hc with h1 | h1
        · exact hN.not_mem_erase h1
        · obtain ⟨⟨i, inner, hqi, hfalse⟩, _⟩ := hshape p h1
          rw [hqi] at hl
          rw [is_content_loaded] at hl
          rw [hfalse] at hl
          exact Bool.false_ne_true hl
      have hpnotfinal : p ∉ (write_fixups_go env rest W2).writer.placeheld_pagelets := by
        intro hc
        rcases ihNEW p hc with h1 | h1
        · exact hpnotW2 h1
        · rw [hl] at h1
          exact Bool.noConfusion h1
      refine ⟨ihN, ihT, ihIDX, ?_, ?_, ?_, ?_, ?_⟩
      · intro q hq
        rcases List.mem_cons.mp hq with h1 | h1
        · subst h1
          exact ⟨List.mem_cons_self _ _, hl⟩
        · obtain ⟨hmem, hload⟩ := ihLOG q h1
          exact ⟨List.mem_cons_of_mem p hmem, hload⟩
      · refine List.nodup_cons.mpr ⟨?_, ihLN⟩
        intro hc
        have := (ihLOG p hc).1
        exact (List.nodup_cons.mp hsN).1 this
      · intro q hq
        rcases List.mem_cons.mp hq with h1 | h1
        · subst h1
          exact hpnotfinal
        · exact ihDISJ q h1
      · intro q hq
        rcases ihNEW q hq with h1 | h1
        · rcases (hW2mem q).mp h1 with h2 | h2
          · exact Or.inl (List.mem_of_mem_erase h2)
          · obtain ⟨⟨i, inner, hqi, hfalse⟩, _⟩ := hshape q h2
            refine Or.inr ?_
            rw [hqi, is_content_loaded]
            exact hfalse
        · exact Or.inr h1
      · intro q i hqi
        refine ihMONO q i ?_
        have hW2a : W2.alloc = (write_in_place p env w.alloc).2.2 := by
          rw [hW2]; exact hf2
        rw [hW2a]
        exact wip_lookup_mono p env w.alloc q i hqi
    · have heq : write_fixups_go env (p :: rest) w =
          write_fixups_go env rest w := by
        rw [write_fixups_go, if_neg hl]
      rw [heq]
      obtain ⟨ihN, ihT, ihIDX, ihLOG, ihLN, ihDISJ, ihNEW, ihMONO⟩ :=
        ih w hN hT hIDX
          (fun q hq => hsIDX q (List.mem_cons_of_mem p hq)) hsN.of_cons
      refine ⟨ihN, ihT, ihIDX, ?_, ihLN, ihDISJ, ihNEW, ihMONO⟩
      intro q hq
      obtain ⟨hmem, hload⟩ := ihLOG q hq
      exact ⟨List.mem_cons_of_mem p hmem, hload⟩

/-- Any single session step preserves the session invariant. -/
theorem stepOp_inv (s : Session) (op : Op) (h : SessionInv s) :
    SessionInv (stepOp s op).2 := by
  obtain ⟨hN, hT, hIDX, hLG, hDISJ, hLN⟩ := h
  unfold stepOp
  by_cases ha : s.aborted = true
  · rw [if_pos ha]
    exact ⟨hN, hT, hIDX, hLG, hDISJ, hLN⟩
  · rw [if_neg ha]
    cases op with
    | render p =>
      dsimp only
      have hshape := wip_pending_shape p s.env s.writer.alloc
      refine ⟨?_, ?_, ?_, hLG, ?_, hLN⟩
      · exact addAll_nodup _ _ hN
      · intro q hq
        rcases mem_addAll.mp hq with h1 | h1
        · exact hT q h1
        · obtain ⟨⟨i, inner, hqi, _⟩, _⟩ := hshape q h1
          exact ⟨i, inner, hqi⟩
      · intro q hq
        rcases mem_addAll.mp hq with h1 | h1
        · obtain ⟨j, hj⟩ := hIDX q h1
          exact ⟨j, wip_lookup_mono p s.env s.writer.alloc q j hj⟩
        · obtain ⟨_, j, hj⟩ := hshape q h1
          exact ⟨j, hj⟩
      · intro q hq
        rcases mem_addAll.mp hq with h1 | h1
        · exact hDISJ q h1
        · obtain ⟨⟨i, inner, hqi, hfalse⟩, _⟩ := hshape q h1
          intro hc
          obtain ⟨i2, inner2, hqi2, htrue⟩ := hLG q hc
          rw [hqi] at hqi2
          cases hqi2
          rw [hfalse] at htrue
          exact Bool.noConfusion htrue
    | setLoaded i =>
      dsimp only
      refine ⟨hN, hT, hIDX, ?_, hDISJ, hLN⟩
      intro q hq
      obtain ⟨j, inner, hqj, htrue⟩ := hLG q hq
      refine ⟨j, inner, hqj, ?_⟩
      rw [List.contains_cons, htrue, Bool.or_true]
    | fixups =>
      dsimp only
      obtain ⟨mN, mT, mIDX, mLOG, mLN, mDISJ, mNEW, _⟩ :=
        fixups_go_master s.env s.writer.placeheld_pagelets s.writer
          hN hT hIDX hIDX hN
      refine ⟨mN, mT, mIDX, ?_, ?_, ?_⟩
      · intro q hq
        rcases List.mem_append.mp hq with h1 | h1
        · exact hLG q h1
        · obtain ⟨hmem, hload⟩ := mLOG q h1
          obtain ⟨i, inner, hqi⟩ := hT q hmem
          subst hqi
          rw [is_content_loaded] at hload
          exact ⟨i, inner, rfl, hload⟩
      · intro q hq hc
        rcases List.mem_append.mp hc with h1 | h1
        · rcases mNEW q hq with h2 | h2
          · exact hDISJ q h2 h1
          · obtain ⟨i, inner, hqi, htrue⟩ := hLG q h1
            subst hqi
            rw [is_content_loaded] at h2
            rw [htrue] at h2
            exact Bool.noConfusion h2
        · exact mDISJ q h1 hq
      · refine List.nodup_append.mpr ⟨hLN, mLN, ?_⟩
        intro a ha hb
        exact hDISJ a (mLOG a hb).1 ha

theorem init_inv : SessionInv Session.init := by
  refine ⟨?_, ?_, ?_, ?_, ?_, ?_⟩ <;>
    simp [SessionInv, Session.init, PageletWriter.init]

theorem runOps_inv :
    ∀ (ops : List Op) (s : Session), SessionInv s →
      SessionInv (runOps s ops).2 := by
  intro ops
  induction ops with
  | nil => intro s h; exact h
  | cons op rest ih =>
    intro s h
    rw [runOps]
    exact ih _ (stepOp_inv s op h)

theorem stepOp_log_ext (s : Session) (op : Op) :
    ∃ ext, (stepOp s op).2.log = s.log ++ ext := by
  unfold stepOp
  by_cases ha : s.aborted = true
  · rw [if_pos ha]
    exact ⟨[], (List.append_nil _).symm⟩
  · rw [if_neg ha]
    cases op with
    | render p => exact ⟨[], (List.append_nil _).symm⟩
    | setLoaded i => exact ⟨[], (List.append_nil _).symm⟩
    | fixups => exact ⟨_, rfl⟩

theorem runOps_log_ext :
    ∀ (ops : List Op) (s : Session),
      ∃ ext, (runOps s ops).2.log = s.log ++ ext := by
  intro ops
  induction ops with
  | nil => intro s; exact ⟨[], (List.append_nil _).symm⟩
  | cons op rest ih =>
    intro s
    rw [runOps]
    obtain ⟨e1, he1⟩ := stepOp_log_ext s op
    obtain ⟨e2, he2⟩ := ih (stepOp s op).2
    exact ⟨e1 ++ e2, by rw [he2, he1, List.append_assoc]⟩

theorem runOps_append_snd :
    ∀ (l1 l2 : List Op) (s : Session),
      (runOps s (l1 ++ l2)).2 = (runOps (runOps s l1).2 l2).2 := by
  intro l1
  induction l1 with
  | nil => intro l2 s; rfl
  | cons op t ih =>
    intro l2 s
    rw [List.cons_append, runOps, runOps]
    exact ih l2 (stepOp s op).2

/-- C1: in every rendering session (any sequence of renders,
`set_loaded` signals and `write_fixups` passes from a fresh writer),
`write_fixup` is invoked at most once per unit — the fixup log of the session
is duplicate-free — and once a unit has been fixed up it is never in the
pending set at any later point of the session. -/
theorem c1_fixup_at_most_once :
    (∀ ops : List Op, ((run ops).2.log).Nodup) ∧
    (∀ (ops1 ops2 : List Op) (p : Pagelet),
       p ∈ (run ops1).2.log →
       p ∉ (run (ops1 ++ ops2)).2.writer.placeheld_pagelets) := by
  have hinv : ∀ ops, SessionInv (run ops).2 :=
    fun ops => runOps_inv ops Session.init init_inv
  constructor
  · intro ops
    exact (hinv ops).2.2.2.2.2
  · intro ops1 ops2 p hp hmem
    have hext : ∃ ext, (run (ops1 ++ ops2)).2.log = (run ops1).2.log ++ ext := by
      rw [run, run, runOps_append_snd]
      exact runOps_log_ext ops2 (runOps Session.init ops1).2
    obtain ⟨ext, hext⟩ := hext
    refine (hinv (ops1 ++ ops2)).2.2.2.2.1 p hmem ?_
    rw [hext]
    exact List.mem_append_left ext hp

theorem c1_witness :
    pageletB ∈ (run [.render pageletB, .setLoaded 7, .fixups]).2.log ∧
    pageletB ∉
      (run ([.render pageletB, .setLoaded 7, .fixups] ++
        [.fixups])).2.writer.placeheld_pagelets :=
  ⟨by decide,
   c1_fixup_at_most_once.2 [.render pageletB, .setLoaded 7, .fixups]
     [.fixups] pageletB (by decide)⟩
